import Mathlib

/-!
Verification of the icosahedral mesh / graph construction core of
`ppsci/data/dataset/atmospheric_utils.py`.

The development shallowly embeds the mesh hierarchy builder
(`get_icosahedron`, `_two_split_unit_sphere_triangle_faces`,
`_ChildVerticesBuilder`, `get_hierarchy_of_triangular_meshes_for_sphere`),
mesh merging (`merge_meshes`), edge extraction (`faces_to_edges`), the
spatial queries (`radius_query_indices`, `in_mesh_triangle_indices`), the
edge feature normalization of `get_bipartite_graph_spatial_features` /
`get_graph_spatial_features`, the local-coordinate rotation engine
(`get_rotation_matrices_to_local_coordinates`, `rotate_with_matrices`,
`get_relative_position_in_receiver_local_coordinates`) and the
`GraphGridMesh.__init__` dispatch.

Vertex positions produced by the subdivision pipeline are represented
symbolically: `SpherePoint.ico i` stands for the i-th vertex of the rotated,
normalized base icosahedron, and `SpherePoint.midpoint a b` stands for the
normalized mean of the positions `a` and `b` (the value computed by
`_ChildVerticesBuilder._create_child_vertex`).  Every combinatorial claim
(counts, prefix nesting, edge symmetry) is independent of the concrete
floating point coordinates, and two symbolic values are equal exactly when
the source computes them by the same arithmetic.
-/

/-- Symbolic exact position on the unit sphere: a base icosahedron vertex or
the normalized midpoint of two previously constructed positions. -/
inductive SpherePoint : Type
  | ico (i : Nat) : SpherePoint
  | midpoint (a b : SpherePoint) : SpherePoint
deriving DecidableEq, Repr

instance : Inhabited SpherePoint := ⟨SpherePoint.ico 0⟩

/-- Face of a triangular mesh: a triple of vertex indices, as in the rows of
the `faces` arrays of the source. -/
abbrev Face := Nat × Nat × Nat

/-- Mirror of the `TriangularMesh` named tuple: vertex positions plus a list
of triangular faces. -/
structure TriangularMesh where
  vertices : List SpherePoint
  faces : List Face
deriving DecidableEq, Repr

/-- Default mesh used to totalize list indexing (`getD`); never produced by
the embedded constructors. -/
def emptyMesh : TriangularMesh := ⟨[], []⟩

/-- Mirror of `get_icosahedron`: 12 vertices (golden-ratio coordinates,
normalized and rotated, represented symbolically by their construction
index) and the fixed list of 20 consistently oriented faces. -/
def get_icosahedron : TriangularMesh where
  vertices := (List.range 12).map SpherePoint.ico
  faces :=
    [(0, 1, 2), (0, 6, 1), (8, 0, 2), (8, 4, 0), (3, 8, 2),
     (3, 2, 7), (7, 2, 1), (0, 4, 6), (4, 11, 6), (6, 11, 5),
     (1, 5, 7), (4, 10, 11), (4, 8, 10), (10, 8, 3), (10, 3, 9),
     (11, 10, 9), (11, 9, 5), (5, 9, 7), (9, 3, 7), (1, 6, 5)]

/-- Mirror of `_ChildVerticesBuilder._get_child_vertex_key`: the unordered
(sorted) pair of parent indices. -/
def childVertexKey (p : Nat × Nat) : Nat × Nat :=
  if p.1 ≤ p.2 then p else (p.2, p.1)

/-- Association-list lookup modeling the Python dict
`_child_vertices_index_mapping`. -/
def lookupKey : List ((Nat × Nat) × Nat) → (Nat × Nat) → Option Nat
  | [], _ => none
  | (k, v) :: rest, key => if k = key then some v else lookupKey rest key

/-- Mirror of `_ChildVerticesBuilder`: dedup map from sorted parent-index
pairs to child vertex indices, the fixed parent vertex array, and the
growing output vertex list (initialized with all parent vertices). -/
structure ChildVerticesBuilder where
  child_vertices_index_mapping : List ((Nat × Nat) × Nat)
  parent_vertices : List SpherePoint
  all_vertices_list : List SpherePoint

/-- Mirror of `_ChildVerticesBuilder._create_child_vertex`: the new vertex is
the normalized mean of the two parent positions; its index (recorded in the
dedup map under the sorted key) is the length of the output list before the
append. -/
def createChildVertex (b : ChildVerticesBuilder) (p : Nat × Nat) :
    ChildVerticesBuilder where
  child_vertices_index_mapping :=
    (childVertexKey p, b.all_vertices_list.length) :: b.child_vertices_index_mapping
  parent_vertices := b.parent_vertices
  all_vertices_list :=
    b.all_vertices_list ++
      [SpherePoint.midpoint (b.parent_vertices.getD p.1 default)
        (b.parent_vertices.getD p.2 default)]

/-- Mirror of `_ChildVerticesBuilder.get_new_child_vertex_index`: look up the
sorted key, creating the child vertex first when it is absent. -/
def getNewChildVertexIndex (b : ChildVerticesBuilder) (p : Nat × Nat) :
    ChildVerticesBuilder × Nat :=
  match lookupKey b.child_vertices_index_mapping (childVertexKey p) with
  | some i => (b, i)
  | none =>
      let b' := createChildVertex b p
      (b', (lookupKey b'.child_vertices_index_mapping (childVertexKey p)).getD 0)

/-- Loop body of `_two_split_unit_sphere_triangle_faces`: thread the builder
through the faces, emitting for each parent face the four child faces
`(a, ab, ca), (ab, b, bc), (ca, bc, c), (ab, bc, ca)`. -/
def twoSplitFaces (b : ChildVerticesBuilder) :
    List Face → ChildVerticesBuilder × List Face
  | [] => (b, [])
  | f :: rest =>
      let r1 := getNewChildVertexIndex b (f.1, f.2.1)
      let r2 := getNewChildVertexIndex r1.1 (f.2.1, f.2.2)
      let r3 := getNewChildVertexIndex r2.1 (f.2.2, f.1)
      let rr := twoSplitFaces r3.1 rest
      (rr.1,
        (f.1, r1.2, r3.2) :: (r1.2, f.2.1, r2.2) ::
          (r3.2, r2.2, f.2.2) :: (r1.2, r2.2, r3.2) :: rr.2)

/-- Mirror of `_two_split_unit_sphere_triangle_faces`: split every face into
four, sharing midpoint vertices through the builder's dedup map. -/
def two_split_unit_sphere_triangle_faces (m : TriangularMesh) : TriangularMesh :=
  let r := twoSplitFaces ⟨[], m.vertices, m.vertices⟩ m.faces
  ⟨r.1.all_vertices_list, r.2⟩

/-- Tail of `get_hierarchy_of_triangular_meshes_for_sphere`'s loop starting
from mesh `m` with `n` remaining splits. -/
def hierarchyFrom (m : TriangularMesh) : Nat → List TriangularMesh
  | 0 => [m]
  | n + 1 => m :: hierarchyFrom (two_split_unit_sphere_triangle_faces m) n

/-- Mirror of `get_hierarchy_of_triangular_meshes_for_sphere`: the base
icosahedron followed by `splits` successive 2-splits. -/
def get_hierarchy_of_triangular_meshes_for_sphere (splits : Nat) :
    List TriangularMesh :=
  hierarchyFrom get_icosahedron splits

/-- Consecutive nesting check performed by the assertion loop of
`merge_meshes`: each coarser vertex array must equal the prefix of the next
finer one (`np.allclose(mesh_i.vertices, mesh_ip1.vertices[:n])`). -/
def nestingCheck : List TriangularMesh → Bool
  | m1 :: m2 :: rest =>
      decide (m1.vertices = m2.vertices.take m1.vertices.length) &&
        nestingCheck (m2 :: rest)
  | _ => true

/-- Mirror of `merge_meshes`: verify the nesting invariant pairwise (a failed
assertion, modeled as `none`, aborts), then keep the finest vertex array and
concatenate all face lists coarsest-first.  The empty list also fails
(`mesh_list[-1]` raises). -/
def merge_meshes : List TriangularMesh → Option TriangularMesh
  | [] => none
  | m :: rest =>
      if nestingCheck (m :: rest) then
        some ⟨((m :: rest).getLastD m).vertices,
          (m :: rest).flatMap TriangularMesh.faces⟩
      else none

/-- Mirror of `faces_to_edges`: senders are the concatenated first, second
and third columns, receivers the second, third and first columns. -/
def faces_to_edges (faces : List Face) : List Nat × List Nat :=
  (faces.map (fun f => f.1) ++ faces.map (fun f => f.2.1) ++
      faces.map (fun f => f.2.2),
    faces.map (fun f => f.2.1) ++ faces.map (fun f => f.2.2) ++
      faces.map (fun f => f.1))

/-- Directed edge list obtained by pairing the sender and receiver columns
returned by `faces_to_edges`. -/
def edgeList (faces : List Face) : List (Nat × Nat) :=
  (faces_to_edges faces).1.zip (faces_to_edges faces).2

/-- Per-face directed edges `i→j, j→k, k→i` of a triangular face. -/
def faceEdges (f : Face) : List (Nat × Nat) :=
  [(f.1, f.2.1), (f.2.1, f.2.2), (f.2.2, f.1)]

/-- Distinct unordered edges of a face list, keyed the same way as the
builder's dedup map. -/
def uniqueEdgeKeys (faces : List Face) : List (Nat × Nat) :=
  ((faces.flatMap faceEdges).map childVertexKey).dedup

theorem lookupKey_cons (k : Nat × Nat) (v : Nat) (l : List ((Nat × Nat) × Nat))
    (key : Nat × Nat) :
    lookupKey ((k, v) :: l) key = if k = key then some v else lookupKey l key := rfl

theorem icosahedron_vertex_count : get_icosahedron.vertices.length = 12 := by
  decide

theorem icosahedron_face_count : get_icosahedron.faces.length = 20 := by
  decide

/-- Keys currently present in the builder's dedup map. -/
def builderKeys (b : ChildVerticesBuilder) : List (Nat × Nat) :=
  b.child_vertices_index_mapping.map Prod.fst

theorem lookupKey_eq_none_iff (l : List ((Nat × Nat) × Nat)) (k : Nat × Nat) :
    lookupKey l k = none ↔ k ∉ l.map Prod.fst := by
  induction l with
  | nil => simp [lookupKey]
  | cons hd tl ih =>
      obtain ⟨k', v'⟩ := hd
      rw [lookupKey_cons]
      by_cases hk : k' = k
      · subst hk; simp
      · simp [hk, ih, Ne.symm hk]

theorem childVertexKey_symm (a b : Nat) :
    childVertexKey (a, b) = childVertexKey (b, a) := by
  unfold childVertexKey
  rcases le_total a b with h | h
  · rcases eq_or_lt_of_le h with rfl | hlt
    · simp
    · simp [le_of_lt hlt, not_le.mpr hlt]
  · rcases eq_or_lt_of_le h with rfl | hlt
    · simp
    · simp [le_of_lt hlt, not_le.mpr hlt]

theorem gNCVI_parent (b : ChildVerticesBuilder) (p : Nat × Nat) :
    (getNewChildVertexIndex b p).1.parent_vertices = b.parent_vertices := by
  unfold getNewChildVertexIndex
  cases h : lookupKey b.child_vertices_index_mapping (childVertexKey p) <;>
    simp [createChildVertex]

theorem gNCVI_lookup_self (b : ChildVerticesBuilder) (p : Nat × Nat) :
    lookupKey (getNewChildVertexIndex b p).1.child_vertices_index_mapping
      (childVertexKey p) = some (getNewChildVertexIndex b p).2 := by
  unfold getNewChildVertexIndex
  cases h : lookupKey b.child_vertices_index_mapping (childVertexKey p) with
  | some i => simpa using h
  | none => simp [createChildVertex, lookupKey_cons]

theorem gNCVI_mono (b : ChildVerticesBuilder) (p : Nat × Nat) (k : Nat × Nat)
    (v : Nat) (h : lookupKey b.child_vertices_index_mapping k = some v) :
    lookupKey (getNewChildVertexIndex b p).1.child_vertices_index_mapping k
      = some v := by
  unfold getNewChildVertexIndex
  cases hl : lookupKey b.child_vertices_index_mapping (childVertexKey p) with
  | some i => simpa using h
  | none =>
      have hne : childVertexKey p ≠ k := by
        intro he
        rw [he, h] at hl
        exact Option.noConfusion hl
      simp [createChildVertex, lookupKey_cons, hne, h]

theorem gNCVI_vertices (b : ChildVerticesBuilder) (p : Nat × Nat) :
    ∃ t, (getNewChildVertexIndex b p).1.all_vertices_list
      = b.all_vertices_list ++ t := by
  unfold getNewChildVertexIndex
  cases h : lookupKey b.child_vertices_index_mapping (childVertexKey p) with
  | some i => exact ⟨[], by simp⟩
  | none =>
      refine ⟨[SpherePoint.midpoint (b.parent_vertices.getD p.1 default)
        (b.parent_vertices.getD p.2 default)], ?_⟩
      simp [createChildVertex]

theorem gNCVI_count (b : ChildVerticesBuilder) (p : Nat × Nat) (P : Nat)
    (h : b.all_vertices_list.length
      = P + b.child_vertices_index_mapping.length) :
    (getNewChildVertexIndex b p).1.all_vertices_list.length
      = P + (getNewChildVertexIndex b p).1.child_vertices_index_mapping.length := by
  unfold getNewChildVertexIndex
  cases hl : lookupKey b.child_vertices_index_mapping (childVertexKey p) with
  | some i => simpa using h
  | none => simp [createChildVertex, h]; omega

theorem gNCVI_keys (b : ChildVerticesBuilder) (p : Nat × Nat) (k : Nat × Nat) :
    k ∈ builderKeys (getNewChildVertexIndex b p).1
      ↔ k ∈ builderKeys b ∨ k = childVertexKey p := by
  unfold getNewChildVertexIndex
  cases hl : lookupKey b.child_vertices_index_mapping (childVertexKey p) with
  | some i =>
      simp only []
      constructor
      · exact fun h => Or.inl h
      · rintro (h | rfl)
        · exact h
        · by_contra hk
          rw [(lookupKey_eq_none_iff _ _).mpr hk] at hl
          exact Option.noConfusion hl
  | none =>
      simp only [builderKeys, createChildVertex, List.map_cons, List.mem_cons]
      tauto

theorem gNCVI_nodup (b : ChildVerticesBuilder) (p : Nat × Nat)
    (h : (builderKeys b).Nodup) :
    (builderKeys (getNewChildVertexIndex b p).1).Nodup := by
  unfold getNewChildVertexIndex
  cases hl : lookupKey b.child_vertices_index_mapping (childVertexKey p) with
  | some i => simpa using h
  | none =>
      have hmem : childVertexKey p ∉ builderKeys b :=
        (lookupKey_eq_none_iff _ _).mp hl
      simp only [builderKeys, createChildVertex, List.map_cons]
      exact List.Nodup.cons hmem h

/-- Child-vertex index that the finished builder assigns to the unordered
edge `{x, y}` (0 if the edge was never processed). -/
def midxOf (b : ChildVerticesBuilder) (x y : Nat) : Nat :=
  (lookupKey b.child_vertices_index_mapping (childVertexKey (x, y))).getD 0

/-- The four child faces of a parent face, expressed through a midpoint
index function `M`. -/
def childFacesOf (M : Nat → Nat → Nat) (f : Face) : List Face :=
  [(f.1, M f.1 f.2.1, M f.2.2 f.1),
   (M f.1 f.2.1, f.2.1, M f.2.1 f.2.2),
   (M f.2.2 f.1, M f.2.1 f.2.2, f.2.2),
   (M f.1 f.2.1, M f.2.1 f.2.2, M f.2.2 f.1)]

/-- Builder state after one full subdivision pass over the faces of `m`. -/
def splitBuilder (m : TriangularMesh) : ChildVerticesBuilder :=
  (twoSplitFaces ⟨[], m.vertices, m.vertices⟩ m.faces).1

theorem midxOf_symm (b : ChildVerticesBuilder) (x y : Nat) :
    midxOf b x y = midxOf b y x := by
  unfold midxOf
  rw [childVertexKey_symm]

theorem tsf_mono (fs : List Face) (b : ChildVerticesBuilder) (k : Nat × Nat)
    (v : Nat) (h : lookupKey b.child_vertices_index_mapping k = some v) :
    lookupKey (twoSplitFaces b fs).1.child_vertices_index_mapping k = some v := by
  induction fs generalizing b with
  | nil => simpa [twoSplitFaces] using h
  | cons f rest ih =>
      simp only [twoSplitFaces]
      exact ih _ (gNCVI_mono _ _ _ _ (gNCVI_mono _ _ _ _ (gNCVI_mono _ _ _ _ h)))

theorem tsf_vertices (fs : List Face) (b : ChildVerticesBuilder) :
    ∃ t, (twoSplitFaces b fs).1.all_vertices_list = b.all_vertices_list ++ t := by
  induction fs generalizing b with
  | nil => exact ⟨[], by simp [twoSplitFaces]⟩
  | cons f rest ih =>
      simp only [twoSplitFaces]
      obtain ⟨t1, h1⟩ := gNCVI_vertices b (f.1, f.2.1)
      obtain ⟨t2, h2⟩ := gNCVI_vertices (getNewChildVertexIndex b (f.1, f.2.1)).1
        (f.2.1, f.2.2)
      obtain ⟨t3, h3⟩ := gNCVI_vertices
        (getNewChildVertexIndex (getNewChildVertexIndex b (f.1, f.2.1)).1
          (f.2.1, f.2.2)).1 (f.2.2, f.1)
      obtain ⟨t4, h4⟩ := ih
        (getNewChildVertexIndex (getNewChildVertexIndex
          (getNewChildVertexIndex b (f.1, f.2.1)).1 (f.2.1, f.2.2)).1
          (f.2.2, f.1)).1
      exact ⟨t1 ++ t2 ++ t3 ++ t4, by rw [h4, h3, h2, h1]; simp⟩

theorem tsf_count (fs : List Face) (b : ChildVerticesBuilder) (P : Nat)
    (h : b.all_vertices_list.length = P + b.child_vertices_index_mapping.length) :
    (twoSplitFaces b fs).1.all_vertices_list.length
      = P + (twoSplitFaces b fs).1.child_vertices_index_mapping.length := by
  induction fs generalizing b with
  | nil => simpa [twoSplitFaces] using h
  | cons f rest ih =>
      simp only [twoSplitFaces]
      exact ih _ (gNCVI_count _ _ _ (gNCVI_count _ _ _ (gNCVI_count _ _ _ h)))

theorem tsf_keys (fs : List Face) (b : ChildVerticesBuilder) (k : Nat × Nat) :
    k ∈ builderKeys (twoSplitFaces b fs).1
      ↔ k ∈ builderKeys b ∨ k ∈ (fs.flatMap faceEdges).map childVertexKey := by
  induction fs generalizing b with
  | nil => simp [twoSplitFaces]
  | cons f rest ih =>
      simp only [twoSplitFaces]
      rw [ih, gNCVI_keys, gNCVI_keys, gNCVI_keys]
      simp only [List.flatMap_cons, faceEdges, List.map_append, List.map_cons,
        List.map_nil, List.mem_append, List.mem_cons, List.not_mem_nil]
      tauto

theorem tsf_nodup (fs : List Face) (b : ChildVerticesBuilder)
    (h : (builderKeys b).Nodup) : (builderKeys (twoSplitFaces b fs).1).Nodup := by
  induction fs generalizing b with
  | nil => simpa [twoSplitFaces] using h
  | cons f rest ih =>
      simp only [twoSplitFaces]
      exact ih _ (gNCVI_nodup _ _ (gNCVI_nodup _ _ (gNCVI_nodup _ _ h)))

theorem tsf_len (fs : List Face) (b : ChildVerticesBuilder) :
    (twoSplitFaces b fs).2.length = 4 * fs.length := by
  induction fs generalizing b with
  | nil => simp [twoSplitFaces]
  | cons f rest ih =>
      simp only [twoSplitFaces, List.length_cons, ih]
      ring

theorem tsf_faces_char (fs : List Face) (b : ChildVerticesBuilder) :
    (twoSplitFaces b fs).2
      = fs.flatMap (childFacesOf (midxOf (twoSplitFaces b fs).1)) := by
  induction fs generalizing b with
  | nil => simp [twoSplitFaces]
  | cons f rest ih =>
      simp only [twoSplitFaces, List.flatMap_cons]
      have h12 : lookupKey (twoSplitFaces
          (getNewChildVertexIndex (getNewChildVertexIndex
            (getNewChildVertexIndex b (f.1, f.2.1)).1 (f.2.1, f.2.2)).1
            (f.2.2, f.1)).1 rest).1.child_vertices_index_mapping
          (childVertexKey (f.1, f.2.1))
          = some (getNewChildVertexIndex b (f.1, f.2.1)).2 :=
        tsf_mono _ _ _ _ (gNCVI_mono _ _ _ _ (gNCVI_mono _ _ _ _
          (gNCVI_lookup_self b (f.1, f.2.1))))
      have h23 : lookupKey (twoSplitFaces
          (getNewChildVertexIndex (getNewChildVertexIndex
            (getNewChildVertexIndex b (f.1, f.2.1)).1 (f.2.1, f.2.2)).1
            (f.2.2, f.1)).1 rest).1.child_vertices_index_mapping
          (childVertexKey (f.2.1, f.2.2))
          = some (getNewChildVertexIndex (getNewChildVertexIndex b
              (f.1, f.2.1)).1 (f.2.1, f.2.2)).2 :=
        tsf_mono _ _ _ _ (gNCVI_mono _ _ _ _
          (gNCVI_lookup_self (getNewChildVertexIndex b (f.1, f.2.1)).1
            (f.2.1, f.2.2)))
      have h31 : lookupKey (twoSplitFaces
          (getNewChildVertexIndex (getNewChildVertexIndex
            (getNewChildVertexIndex b (f.1, f.2.1)).1 (f.2.1, f.2.2)).1
            (f.2.2, f.1)).1 rest).1.child_vertices_index_mapping
          (childVertexKey (f.2.2, f.1))
          = some (getNewChildVertexIndex (getNewChildVertexIndex
              (getNewChildVertexIndex b (f.1, f.2.1)).1 (f.2.1, f.2.2)).1
              (f.2.2, f.1)).2 :=
        tsf_mono _ _ _ _ (gNCVI_lookup_self _ (f.2.2, f.1))
      rw [ih]
      simp [childFacesOf, midxOf, h12, h23, h31]

theorem two_split_vertices (m : TriangularMesh) :
    ∃ t, (two_split_unit_sphere_triangle_faces m).vertices = m.vertices ++ t :=
  tsf_vertices m.faces ⟨[], m.vertices, m.vertices⟩

theorem two_split_faces_len (m : TriangularMesh) :
    (two_split_unit_sphere_triangle_faces m).faces.length = 4 * m.faces.length :=
  tsf_len m.faces ⟨[], m.vertices, m.vertices⟩

theorem two_split_faces_char (m : TriangularMesh) :
    (two_split_unit_sphere_triangle_faces m).faces
      = m.faces.flatMap (childFacesOf (midxOf (splitBuilder m))) :=
  tsf_faces_char m.faces ⟨[], m.vertices, m.vertices⟩

theorem two_split_vertex_count (m : TriangularMesh) :
    (two_split_unit_sphere_triangle_faces m).vertices.length
      = m.vertices.length + (uniqueEdgeKeys m.faces).length := by
  have hcnt := tsf_count m.faces ⟨[], m.vertices, m.vertices⟩ m.vertices.length
    (by simp)
  have hnd : (builderKeys (splitBuilder m)).Nodup :=
    tsf_nodup m.faces ⟨[], m.vertices, m.vertices⟩ (by simp [builderKeys])
  have hmem : ∀ k, k ∈ builderKeys (splitBuilder m)
      ↔ k ∈ (m.faces.flatMap faceEdges).map childVertexKey := by
    intro k
    have := tsf_keys m.faces ⟨[], m.vertices, m.vertices⟩ k
    simpa [builderKeys] using this
  have hfin : (builderKeys (splitBuilder m)).toFinset
      = (uniqueEdgeKeys m.faces).toFinset := by
    apply Finset.ext
    intro k
    simp [List.mem_toFinset, hmem, uniqueEdgeKeys, List.mem_dedup]
  have hnd2 : (uniqueEdgeKeys m.faces).Nodup := by
    unfold uniqueEdgeKeys
    exact List.nodup_dedup _
  have hlen : (builderKeys (splitBuilder m)).length
      = (uniqueEdgeKeys m.faces).length := by
    rw [← List.toFinset_card_of_nodup hnd, ← List.toFinset_card_of_nodup hnd2,
      hfin]
  have hmap : (splitBuilder m).child_vertices_index_mapping.length
      = (builderKeys (splitBuilder m)).length := by
    simp [builderKeys]
  calc (two_split_unit_sphere_triangle_faces m).vertices.length
      = m.vertices.length
        + (splitBuilder m).child_vertices_index_mapping.length := hcnt
    _ = m.vertices.length + (uniqueEdgeKeys m.faces).length := by
        rw [hmap, hlen]

theorem hierarchyFrom_length (m : TriangularMesh) (n : Nat) :
    (hierarchyFrom m n).length = n + 1 := by
  induction n generalizing m with
  | zero => rfl
  | succ n ih => simp [hierarchyFrom, ih]

theorem hierarchyFrom_getD (m : TriangularMesh) (n k : Nat) (hk : k ≤ n) :
    (hierarchyFrom m n).getD k emptyMesh
      = two_split_unit_sphere_triangle_faces^[k] m := by
  induction n generalizing m k with
  | zero =>
      interval_cases k
      rfl
  | succ n ih =>
      cases k with
      | zero => rfl
      | succ k =>
          have hk' : k ≤ n := Nat.lt_succ_iff.mp (Nat.lt_of_succ_le hk)
          simp only [hierarchyFrom, List.getD_cons_succ]
          rw [ih _ _ hk', Function.iterate_succ_apply]

theorem hierarchy_length (d : Nat) :
    (get_hierarchy_of_triangular_meshes_for_sphere d).length = d + 1 :=
  hierarchyFrom_length get_icosahedron d

theorem hierarchy_getD (d k : Nat) (hk : k ≤ d) :
    (get_hierarchy_of_triangular_meshes_for_sphere d).getD k emptyMesh
      = two_split_unit_sphere_triangle_faces^[k] get_icosahedron :=
  hierarchyFrom_getD get_icosahedron d k hk

theorem iterate_vertices_append (m : TriangularMesh) (j : Nat) :
    ∃ t, (two_split_unit_sphere_triangle_faces^[j] m).vertices
      = m.vertices ++ t := by
  induction j generalizing m with
  | zero => exact ⟨[], by simp⟩
  | succ j ih =>
      obtain ⟨t1, h1⟩ := ih (two_split_unit_sphere_triangle_faces m)
      obtain ⟨t0, h0⟩ := two_split_vertices m
      refine ⟨t0 ++ t1, ?_⟩
      rw [Function.iterate_succ_apply, h1, h0, List.append_assoc]

theorem iterate_faces_length (k : Nat) :
    (two_split_unit_sphere_triangle_faces^[k] get_icosahedron).faces.length
      = 20 * 4 ^ k := by
  induction k with
  | zero => rfl
  | succ k ih =>
      rw [Function.iterate_succ_apply', two_split_faces_len, ih]
      ring

/-- C1: `get_hierarchy_of_triangular_meshes_for_sphere d` returns `d + 1`
meshes, the level-`k` mesh has `20 * 4 ^ k` faces, the base level has 12
vertices, and each split appends exactly one new vertex per unique unordered
edge of the previous level while leaving the existing vertices untouched (the
previous vertex array is an exact prefix of the new one). -/
theorem hierarchy_of_meshes_spec (d k : Nat) :
    (get_hierarchy_of_triangular_meshes_for_sphere d).length = d + 1
    ∧ (k ≤ d →
        ((get_hierarchy_of_triangular_meshes_for_sphere d).getD k
          emptyMesh).faces.length = 20 * 4 ^ k)
    ∧ ((get_hierarchy_of_triangular_meshes_for_sphere d).getD 0
        emptyMesh).vertices.length = 12
    ∧ (k + 1 ≤ d →
        ((get_hierarchy_of_triangular_meshes_for_sphere d).getD (k + 1)
            emptyMesh).vertices.length
          = ((get_hierarchy_of_triangular_meshes_for_sphere d).getD k
              emptyMesh).vertices.length
            + (uniqueEdgeKeys ((get_hierarchy_of_triangular_meshes_for_sphere
                d).getD k emptyMesh).faces).length
        ∧ ((get_hierarchy_of_triangular_meshes_for_sphere d).getD k
            emptyMesh).vertices
          = ((get_hierarchy_of_triangular_meshes_for_sphere d).getD (k + 1)
              emptyMesh).vertices.take
              (((get_hierarchy_of_triangular_meshes_for_sphere d).getD k
                emptyMesh).vertices.length)) := by
  refine ⟨hierarchy_length d, ?_, ?_, ?_⟩
  · intro hk
    rw [hierarchy_getD d k hk, iterate_faces_length]
  · rw [hierarchy_getD d 0 (Nat.zero_le d)]
    simpa using icosahedron_vertex_count
  · intro hk
    have hk' : k ≤ d := Nat.le_of_succ_le hk
    rw [hierarchy_getD d (k + 1) hk, hierarchy_getD d k hk',
      Function.iterate_succ_apply']
    constructor
    · exact two_split_vertex_count _
    · obtain ⟨t, ht⟩ := two_split_vertices
        (two_split_unit_sphere_triangle_faces^[k] get_icosahedron)
      rw [ht, List.take_left]

/-- Witness for C1 at depth 1, level 0: two meshes, 20 and 80 faces,
12 base vertices, and the split adds one vertex per each of the 30 unique
icosahedron edges (42 = 12 + 30). -/
theorem hierarchy_of_meshes_spec_witness :
    (0 ≤ 1
      ∧ ((get_hierarchy_of_triangular_meshes_for_sphere 1).getD 0
          emptyMesh).faces.length = 20 * 4 ^ 0)
    ∧ (0 + 1 ≤ 1
      ∧ ((get_hierarchy_of_triangular_meshes_for_sphere 1).getD 1
          emptyMesh).vertices.length
        = ((get_hierarchy_of_triangular_meshes_for_sphere 1).getD 0
            emptyMesh).vertices.length
          + (uniqueEdgeKeys ((get_hierarchy_of_triangular_meshes_for_sphere
              1).getD 0 emptyMesh).faces).length) :=
  ⟨⟨by decide, (hierarchy_of_meshes_spec 1 0).2.1 (by decide)⟩,
    ⟨by decide, ((hierarchy_of_meshes_spec 1 0).2.2.2 (by decide)).1⟩⟩

/-- C2: in every hierarchy, the vertex array of a coarser level `i` equals
the corresponding prefix of the vertex array of any finer level `j`. -/
theorem hierarchy_vertex_nesting (d i j : Nat) (hij : i < j) (hj : j ≤ d) :
    ((get_hierarchy_of_triangular_meshes_for_sphere d).getD i
        emptyMesh).vertices
      = ((get_hierarchy_of_triangular_meshes_for_sphere d).getD j
          emptyMesh).vertices.take
          (((get_hierarchy_of_triangular_meshes_for_sphere d).getD i
            emptyMesh).vertices.length) := by
  have hi : i ≤ d := le_trans (le_of_lt hij) hj
  rw [hierarchy_getD d i hi, hierarchy_getD d j hj]
  have hsplit : j = (j - i) + i := by omega
  rw [hsplit, Function.iterate_add_apply]
  obtain ⟨t, ht⟩ := iterate_vertices_append
    (two_split_unit_sphere_triangle_faces^[i] get_icosahedron) (j - i)
  rw [ht, List.take_left]

/-- Witness for C2 on the depth-1 hierarchy: level 0 is a prefix of level 1. -/
theorem hierarchy_vertex_nesting_witness :
    ((get_hierarchy_of_triangular_meshes_for_sphere 1).getD 0
        emptyMesh).vertices
      = ((get_hierarchy_of_triangular_meshes_for_sphere 1).getD 1
          emptyMesh).vertices.take
          (((get_hierarchy_of_triangular_meshes_for_sphere 1).getD 0
            emptyMesh).vertices.length) :=
  hierarchy_vertex_nesting 1 0 1 (by decide) (by decide)

theorem nestingCheck_iff (ms : List TriangularMesh) :
    nestingCheck ms = true
      ↔ ∀ i, i + 1 < ms.length →
          (ms.getD i emptyMesh).vertices
            = (ms.getD (i + 1) emptyMesh).vertices.take
                ((ms.getD i emptyMesh).vertices.length) := by
  induction ms with
  | nil => simp [nestingCheck]
  | cons m1 rest ih =>
      cases rest with
      | nil => simp [nestingCheck]
      | cons m2 rest2 =>
          rw [show nestingCheck (m1 :: m2 :: rest2)
              = (decide (m1.vertices = m2.vertices.take m1.vertices.length) &&
                  nestingCheck (m2 :: rest2)) from rfl]
          rw [Bool.and_eq_true, decide_eq_true_eq, ih]
          constructor
          · rintro ⟨h0, hrest⟩ i hi
            cases i with
            | zero => simpa using h0
            | succ i =>
                have hi' : i + 1 < (m2 :: rest2).length := by
                  simpa [Nat.succ_lt_succ_iff] using hi
                simpa using hrest i hi'
          · intro h
            refine ⟨?_, fun i hi => ?_⟩
            · have := h 0 (by simp)
              simpa using this
            · have := h (i + 1) (by simpa [Nat.succ_lt_succ_iff] using hi)
              simpa using this

/-- C3: `merge_meshes` fails whenever some coarser level's vertex array is
not the corresponding prefix of the next finer level's, and otherwise
returns the finest vertex array together with the concatenation of all the
levels' face lists, coarsest first. -/
theorem merge_meshes_spec (ms : List TriangularMesh) (hne : ms ≠ []) :
    ((∃ i, i + 1 < ms.length ∧
        (ms.getD i emptyMesh).vertices
          ≠ (ms.getD (i + 1) emptyMesh).vertices.take
              ((ms.getD i emptyMesh).vertices.length)) →
      merge_meshes ms = none)
    ∧ ((∀ i, i + 1 < ms.length →
        (ms.getD i emptyMesh).vertices
          = (ms.getD (i + 1) emptyMesh).vertices.take
              ((ms.getD i emptyMesh).vertices.length)) →
      merge_meshes ms = some ⟨(ms.getLastD emptyMesh).vertices,
        ms.flatMap TriangularMesh.faces⟩) := by
  cases ms with
  | nil => exact absurd rfl hne
  | cons m rest =>
      constructor
      · rintro ⟨i, hi, hbad⟩
        have hcheck : nestingCheck (m :: rest) = false := by
          rcases Bool.eq_false_or_eq_true (nestingCheck (m :: rest)) with h | h
          · exact absurd ((nestingCheck_iff (m :: rest)).mp h i hi) hbad
          · exact h
        simp [merge_meshes, hcheck]
      · intro h
        have hcheck : nestingCheck (m :: rest) = true :=
          (nestingCheck_iff (m :: rest)).mpr h
        simp only [merge_meshes, hcheck, if_true]
        rw [List.getLastD_cons, List.getLastD_cons]

/-- Witness for C3: a two-level list satisfying the nesting check merges into
the finer vertex array with concatenated faces. -/
theorem merge_meshes_spec_witness :
    merge_meshes [⟨[SpherePoint.ico 0], [(0, 0, 0)]⟩,
        ⟨[SpherePoint.ico 0, SpherePoint.ico 1], [(0, 1, 0)]⟩]
      = some ⟨([⟨[SpherePoint.ico 0], [(0, 0, 0)]⟩,
          ⟨[SpherePoint.ico 0, SpherePoint.ico 1],
            [(0, 1, 0)]⟩] : List TriangularMesh).getLastD emptyMesh |>.vertices,
        ([⟨[SpherePoint.ico 0], [(0, 0, 0)]⟩,
          ⟨[SpherePoint.ico 0, SpherePoint.ico 1],
            [(0, 1, 0)]⟩] : List TriangularMesh).flatMap TriangularMesh.faces⟩ :=
  (merge_meshes_spec _ (by decide)).2 (by
    intro i hi
    have h0 : i = 0 := by
      simp only [List.length_cons, List.length_nil] at hi
      omega
    subst h0
    decide)

theorem edgeList_eq_maps (faces : List Face) :
    edgeList faces
      = faces.map (fun f => (f.1, f.2.1)) ++ faces.map (fun f => (f.2.1, f.2.2))
        ++ faces.map (fun f => (f.2.2, f.1)) := by
  unfold edgeList faces_to_edges
  rw [List.zip_append (by simp), List.zip_append (by simp), List.zip_map',
    List.zip_map', List.zip_map']

theorem mem_edgeList_iff (faces : List Face) (e : Nat × Nat) :
    e ∈ edgeList faces ↔ ∃ f ∈ faces, e ∈ faceEdges f := by
  rw [edgeList_eq_maps]
  simp only [List.mem_append, List.mem_map, faceEdges, List.mem_cons,
    List.not_mem_nil, or_false]
  constructor
  · rintro ((⟨f, hf, rfl⟩ | ⟨f, hf, rfl⟩) | ⟨f, hf, rfl⟩)
    · exact ⟨f, hf, Or.inl rfl⟩
    · exact ⟨f, hf, Or.inr (Or.inl rfl)⟩
    · exact ⟨f, hf, Or.inr (Or.inr rfl)⟩
  · rintro ⟨f, hf, rfl | rfl | rfl⟩
    · exact Or.inl (Or.inl ⟨f, hf, rfl⟩)
    · exact Or.inl (Or.inr ⟨f, hf, rfl⟩)
    · exact Or.inr ⟨f, hf, rfl⟩

theorem edgeList_perm_flatMap (faces : List Face) :
    (edgeList faces).Perm (faces.flatMap faceEdges) := by
  rw [edgeList_eq_maps]
  induction faces with
  | nil => simp
  | cons f fs ih =>
      simp only [List.map_cons, List.flatMap_cons, List.cons_append, faceEdges]
      refine List.Perm.cons _ ?_
      have h1 : (List.map (fun f => (f.1, f.2.1)) fs
            ++ ((f.2.1, f.2.2) :: List.map (fun f => (f.2.1, f.2.2)) fs))
            ++ ((f.2.2, f.1) :: List.map (fun f => (f.2.2, f.1)) fs)
          |>.Perm (((f.2.1, f.2.2) :: (List.map (fun f => (f.1, f.2.1)) fs
            ++ List.map (fun f => (f.2.1, f.2.2)) fs))
            ++ ((f.2.2, f.1) :: List.map (fun f => (f.2.2, f.1)) fs)) :=
        List.Perm.append_right _ List.perm_middle
      refine h1.trans ?_
      simp only [List.cons_append]
      refine List.Perm.cons _ ?_
      refine List.Perm.trans List.perm_middle ?_
      exact List.Perm.cons _ ih

/-- Closure of a face list's directed edge set under edge reversal. -/
def EdgeSymmP (faces : List Face) : Prop :=
  ∀ e ∈ edgeList faces, (e.2, e.1) ∈ edgeList faces

theorem child_face_edge_mem (m : TriangularMesh) (f : Face) (hf : f ∈ m.faces)
    (c : Face) (hc : c ∈ childFacesOf (midxOf (splitBuilder m)) f)
    (e : Nat × Nat) (he : e ∈ faceEdges c) :
    e ∈ edgeList (two_split_unit_sphere_triangle_faces m).faces := by
  rw [mem_edgeList_iff, two_split_faces_char]
  exact ⟨c, List.mem_flatMap.mpr ⟨f, hf, hc⟩, he⟩

theorem child_edges_of_parent_edge (m : TriangularMesh) (u v : Nat)
    (h : (u, v) ∈ edgeList m.faces) :
    (u, midxOf (splitBuilder m) u v)
        ∈ edgeList (two_split_unit_sphere_triangle_faces m).faces
    ∧ (midxOf (splitBuilder m) u v, v)
        ∈ edgeList (two_split_unit_sphere_triangle_faces m).faces := by
  rw [mem_edgeList_iff] at h
  obtain ⟨f, hf, he⟩ := h
  simp only [faceEdges, List.mem_cons, List.not_mem_nil, or_false,
    Prod.mk.injEq] at he
  rcases he with ⟨hu, hv⟩ | ⟨hu, hv⟩ | ⟨hu, hv⟩ <;> subst hu <;> subst hv
  · exact ⟨child_face_edge_mem m f hf
        (f.1, midxOf (splitBuilder m) f.1 f.2.1,
          midxOf (splitBuilder m) f.2.2 f.1)
        (by simp [childFacesOf]) _ (by simp [faceEdges]),
      child_face_edge_mem m f hf
        (midxOf (splitBuilder m) f.1 f.2.1, f.2.1,
          midxOf (splitBuilder m) f.2.1 f.2.2)
        (by simp [childFacesOf]) _ (by simp [faceEdges])⟩
  · exact ⟨child_face_edge_mem m f hf
        (midxOf (splitBuilder m) f.1 f.2.1, f.2.1,
          midxOf (splitBuilder m) f.2.1 f.2.2)
        (by simp [childFacesOf]) _ (by simp [faceEdges]),
      child_face_edge_mem m f hf
        (midxOf (splitBuilder m) f.2.2 f.1,
          midxOf (splitBuilder m) f.2.1 f.2.2, f.2.2)
        (by simp [childFacesOf]) _ (by simp [faceEdges])⟩
  · exact ⟨child_face_edge_mem m f hf
        (midxOf (splitBuilder m) f.2.2 f.1,
          midxOf (splitBuilder m) f.2.1 f.2.2, f.2.2)
        (by simp [childFacesOf]) _ (by simp [faceEdges]),
      child_face_edge_mem m f hf
        (f.1, midxOf (splitBuilder m) f.1 f.2.1,
          midxOf (splitBuilder m) f.2.2 f.1)
        (by simp [childFacesOf]) _ (by simp [faceEdges])⟩

theorem two_split_edge_symm (m : TriangularMesh) (hs : EdgeSymmP m.faces) :
    EdgeSymmP (two_split_unit_sphere_triangle_faces m).faces := by
  intro e he
  rw [mem_edgeList_iff, two_split_faces_char] at he
  obtain ⟨f, hf, cf, hchild, hecf⟩ :
      ∃ f ∈ m.faces, ∃ cf ∈ childFacesOf (midxOf (splitBuilder m)) f,
        e ∈ faceEdges cf := by
    obtain ⟨cf, hcf, hecf⟩ := he
    rw [List.mem_flatMap] at hcf
    obtain ⟨f, hf, hchild⟩ := hcf
    exact ⟨f, hf, cf, hchild, hecf⟩
  have h1 : (f.1, f.2.1) ∈ edgeList m.faces :=
    (mem_edgeList_iff _ _).mpr ⟨f, hf, by simp [faceEdges]⟩
  have h2 : (f.2.1, f.2.2) ∈ edgeList m.faces :=
    (mem_edgeList_iff _ _).mpr ⟨f, hf, by simp [faceEdges]⟩
  have h3 : (f.2.2, f.1) ∈ edgeList m.faces :=
    (mem_edgeList_iff _ _).mpr ⟨f, hf, by simp [faceEdges]⟩
  have r1 : (f.2.1, f.1) ∈ edgeList m.faces := hs _ h1
  have r2 : (f.2.2, f.2.1) ∈ edgeList m.faces := hs _ h2
  have r3 : (f.1, f.2.2) ∈ edgeList m.faces := hs _ h3
  simp only [childFacesOf, List.mem_cons, List.not_mem_nil, or_false] at hchild
  rcases hchild with rfl | rfl | rfl | rfl <;>
    simp only [faceEdges, List.mem_cons, List.not_mem_nil, or_false] at hecf
  · rcases hecf with rfl | rfl | rfl
    · have hrev := (child_edges_of_parent_edge m f.2.1 f.1 r1).2
      rw [midxOf_symm] at hrev
      simpa using hrev
    · exact child_face_edge_mem m f hf
        (midxOf (splitBuilder m) f.1 f.2.1, midxOf (splitBuilder m) f.2.1 f.2.2,
          midxOf (splitBuilder m) f.2.2 f.1)
        (by simp [childFacesOf]) _ (by simp [faceEdges])
    · have hrev := (child_edges_of_parent_edge m f.1 f.2.2 r3).1
      rw [midxOf_symm] at hrev
      simpa using hrev
  · rcases hecf with rfl | rfl | rfl
    · have hrev := (child_edges_of_parent_edge m f.2.1 f.1 r1).1
      rw [midxOf_symm] at hrev
      simpa using hrev
    · have hrev := (child_edges_of_parent_edge m f.2.2 f.2.1 r2).2
      rw [midxOf_symm] at hrev
      simpa using hrev
    · exact child_face_edge_mem m f hf
        (midxOf (splitBuilder m) f.1 f.2.1, midxOf (splitBuilder m) f.2.1 f.2.2,
          midxOf (splitBuilder m) f.2.2 f.1)
        (by simp [childFacesOf]) _ (by simp [faceEdges])
  · rcases hecf with rfl | rfl | rfl
    · exact child_face_edge_mem m f hf
        (midxOf (splitBuilder m) f.1 f.2.1, midxOf (splitBuilder m) f.2.1 f.2.2,
          midxOf (splitBuilder m) f.2.2 f.1)
        (by simp [childFacesOf]) _ (by simp [faceEdges])
    · have hrev := (child_edges_of_parent_edge m f.2.2 f.2.1 r2).1
      rw [midxOf_symm] at hrev
      simpa using hrev
    · have hrev := (child_edges_of_parent_edge m f.1 f.2.2 r3).2
      rw [midxOf_symm] at hrev
      simpa using hrev
  · rcases hecf with rfl | rfl | rfl
    · exact child_face_edge_mem m f hf
        (midxOf (splitBuilder m) f.1 f.2.1, f.2.1,
          midxOf (splitBuilder m) f.2.1 f.2.2)
        (by simp [childFacesOf]) _ (by simp [faceEdges])
    · exact child_face_edge_mem m f hf
        (midxOf (splitBuilder m) f.2.2 f.1, midxOf (splitBuilder m) f.2.1 f.2.2,
          f.2.2)
        (by simp [childFacesOf]) _ (by simp [faceEdges])
    · exact child_face_edge_mem m f hf
        (f.1, midxOf (splitBuilder m) f.1 f.2.1,
          midxOf (splitBuilder m) f.2.2 f.1)
        (by simp [childFacesOf]) _ (by simp [faceEdges])

theorem icosahedron_edge_symm : EdgeSymmP get_icosahedron.faces := by
  have : ∀ e ∈ edgeList get_icosahedron.faces,
      (e.2, e.1) ∈ edgeList get_icosahedron.faces := by decide
  exact this

theorem hierarchyFrom_edge_symm (n : Nat) (m : TriangularMesh)
    (hm : EdgeSymmP m.faces) :
    ∀ x ∈ hierarchyFrom m n, EdgeSymmP x.faces := by
  induction n generalizing m with
  | zero =>
      intro x hx
      simp only [hierarchyFrom, List.mem_singleton] at hx
      subst hx
      exact hm
  | succ n ih =>
      intro x hx
      simp only [hierarchyFrom, List.mem_cons] at hx
      rcases hx with rfl | hx
      · exact hm
      · exact ih _ (two_split_edge_symm m hm) x hx

theorem hierarchyFrom_shape (m : TriangularMesh) (n : Nat) :
    ∃ t, hierarchyFrom m n = m :: t := by
  cases n with
  | zero => exact ⟨[], rfl⟩
  | succ n => exact ⟨_, rfl⟩

theorem nestingCheck_hierarchyFrom (n : Nat) (m : TriangularMesh) :
    nestingCheck (hierarchyFrom m n) = true := by
  induction n generalizing m with
  | zero => rfl
  | succ n ih =>
      obtain ⟨t, ht⟩ := hierarchyFrom_shape
        (two_split_unit_sphere_triangle_faces m) n
      show nestingCheck
        (m :: hierarchyFrom (two_split_unit_sphere_triangle_faces m) n) = true
      rw [ht]
      have hpre : m.vertices
          = (two_split_unit_sphere_triangle_faces m).vertices.take
              m.vertices.length := by
        obtain ⟨s, hsv⟩ := two_split_vertices m
        rw [hsv, List.take_left]
      have hrest : nestingCheck
          ((two_split_unit_sphere_triangle_faces m) :: t) = true := by
        rw [← ht]
        exact ih _
      show (decide (m.vertices
          = (two_split_unit_sphere_triangle_faces m).vertices.take
              m.vertices.length) &&
        nestingCheck ((two_split_unit_sphere_triangle_faces m) :: t)) = true
      rw [hrest, decide_eq_true hpre]
      rfl

/-- Merged multi-resolution mesh of the depth-`d` hierarchy. -/
def mergedMesh (d : Nat) : TriangularMesh :=
  (merge_meshes (get_hierarchy_of_triangular_meshes_for_sphere d)).getD emptyMesh

theorem merge_hierarchy_eq (d : Nat) :
    merge_meshes (get_hierarchy_of_triangular_meshes_for_sphere d)
      = some (mergedMesh d)
    ∧ (mergedMesh d).faces
      = (get_hierarchy_of_triangular_meshes_for_sphere d).flatMap
          TriangularMesh.faces := by
  obtain ⟨t, ht⟩ := hierarchyFrom_shape get_icosahedron d
  have hcheck := nestingCheck_hierarchyFrom d get_icosahedron
  rw [ht] at hcheck
  unfold mergedMesh get_hierarchy_of_triangular_meshes_for_sphere
  rw [ht]
  simp [merge_meshes, hcheck]

/-- C4: `faces_to_edges` turns each face `(i, j, k)` into the directed edges
`i→j, j→k, k→i` (the sender/receiver zip is a permutation of the per-face
edge triples), and for every merged hierarchy mesh the resulting edge set is
closed under reversal. -/
theorem faces_to_edges_spec :
    (∀ faces : List Face, (edgeList faces).Perm (faces.flatMap faceEdges))
    ∧ (∀ d, merge_meshes (get_hierarchy_of_triangular_meshes_for_sphere d)
        = some (mergedMesh d))
    ∧ (∀ d, ∀ e ∈ edgeList (mergedMesh d).faces,
        (e.2, e.1) ∈ edgeList (mergedMesh d).faces) := by
  refine ⟨edgeList_perm_flatMap, fun d => (merge_hierarchy_eq d).1,
    fun d e he => ?_⟩
  rw [(merge_hierarchy_eq d).2] at he ⊢
  rw [mem_edgeList_iff] at he
  obtain ⟨f, hf, hef⟩ := he
  rw [List.mem_flatMap] at hf
  obtain ⟨mesh, hmesh, hfm⟩ := hf
  have hsym : EdgeSymmP mesh.faces :=
    hierarchyFrom_edge_symm d get_icosahedron icosahedron_edge_symm mesh hmesh
  have he' : e ∈ edgeList mesh.faces :=
    (mem_edgeList_iff _ _).mpr ⟨f, hfm, hef⟩
  have hrev := hsym e he'
  rw [mem_edgeList_iff] at hrev
  obtain ⟨f', hf', hef'⟩ := hrev
  exact (mem_edgeList_iff _ _).mpr
    ⟨f', List.mem_flatMap.mpr ⟨mesh, hmesh, hf'⟩, hef'⟩

/-- Witness for C4: the reversal of the merged depth-0 edge `(0, 1)` is again
an edge. -/
theorem faces_to_edges_spec_witness :
    ((0, 1) : Nat × Nat).2 = 1
    ∧ (1, 0) ∈ edgeList (mergedMesh 0).faces :=
  ⟨rfl, faces_to_edges_spec.2.2 0 (0, 1) (by decide)⟩

theorem flatMap_triple_length {α β : Type} (l : List α) (f1 f2 f3 : α → β) :
    (l.flatMap fun x => [f1 x, f2 x, f3 x]).length = 3 * l.length := by
  induction l with
  | nil => simp
  | cons x xs ih =>
      simp only [List.flatMap_cons, List.length_append, List.length_cons,
        List.length_nil, ih, List.length_cons]
      omega

theorem flatMap_triple_getD {α β : Type} (l : List α) (f1 f2 f3 : α → β)
    (d : β) (g : Nat) (hg : g < l.length) :
    ((l.flatMap fun x => [f1 x, f2 x, f3 x]).getD (3 * g) d
        = f1 (l.get ⟨g, hg⟩))
    ∧ ((l.flatMap fun x => [f1 x, f2 x, f3 x]).getD (3 * g + 1) d
        = f2 (l.get ⟨g, hg⟩))
    ∧ ((l.flatMap fun x => [f1 x, f2 x, f3 x]).getD (3 * g + 2) d
        = f3 (l.get ⟨g, hg⟩)) := by
  induction l generalizing g with
  | nil => exact absurd hg (by simp)
  | cons x xs ih =>
      cases g with
      | zero => exact ⟨rfl, rfl, rfl⟩
      | succ g =>
          have hg' : g < xs.length := by
            simpa [Nat.succ_lt_succ_iff] using hg
          have e1 : 3 * (g + 1) = 3 * g + 1 + 1 + 1 := by ring
          rw [e1, show 3 * g + 1 + 1 + 1 + 2 = 3 * g + 1 + 1 + 1 + 1 + 1 from
            by ring]
          simp only [List.flatMap_cons, List.cons_append, List.nil_append,
            List.getD_cons_succ, List.get_cons_succ]
          rw [show 3 * g + 1 + 1 = 3 * g + 2 from by ring]
          exact ⟨(ih g hg').1, (ih g hg').2.1, (ih g hg').2.2⟩

/-- Mirror of `in_mesh_triangle_indices`.  The call to
`trimesh.proximity.closest_point` (an external library, not part of this
repository) is abstracted by its output `query_face_indices`: one containing
face index per flattened grid point of the `num_lat_points × num_lon_points`
grid.  The function gathers `mesh.faces[query_face_indices]` and flattens it
row-major, and tiles each grid index three times. -/
def in_mesh_triangle_indices (num_lat_points num_lon_points : Nat)
    (mesh : TriangularMesh) (query_face_indices : List Nat) :
    List Nat × List Nat :=
  ((List.range (num_lat_points * num_lon_points)).flatMap fun g => [g, g, g],
    (query_face_indices.map fun fi => mesh.faces.getD fi (0, 0, 0)).flatMap
      fun f => [f.1, f.2.1, f.2.2])

/-- C5: the point-location query returns exactly `3 × num_grid_points` edges,
three per grid point, and for each grid point the three mesh indices are the
vertices of a single mesh face, in that face's vertex order. -/
theorem in_mesh_triangle_indices_spec (num_lat_points num_lon_points : Nat)
    (mesh : TriangularMesh) (query_face_indices : List Nat)
    (hlen : query_face_indices.length = num_lat_points * num_lon_points)
    (hvalid : ∀ fi ∈ query_face_indices, fi < mesh.faces.length) :
    (in_mesh_triangle_indices num_lat_points num_lon_points mesh
        query_face_indices).1.length = 3 * (num_lat_points * num_lon_points)
    ∧ (in_mesh_triangle_indices num_lat_points num_lon_points mesh
        query_face_indices).2.length = 3 * (num_lat_points * num_lon_points)
    ∧ ∀ g, g < num_lat_points * num_lon_points →
        ∃ f ∈ mesh.faces,
          ((in_mesh_triangle_indices num_lat_points num_lon_points mesh
              query_face_indices).1.getD (3 * g) 0 = g
            ∧ (in_mesh_triangle_indices num_lat_points num_lon_points mesh
              query_face_indices).2.getD (3 * g) 0 = f.1)
          ∧ ((in_mesh_triangle_indices num_lat_points num_lon_points mesh
              query_face_indices).1.getD (3 * g + 1) 0 = g
            ∧ (in_mesh_triangle_indices num_lat_points num_lon_points mesh
              query_face_indices).2.getD (3 * g + 1) 0 = f.2.1)
          ∧ ((in_mesh_triangle_indices num_lat_points num_lon_points mesh
              query_face_indices).1.getD (3 * g + 2) 0 = g
            ∧ (in_mesh_triangle_indices num_lat_points num_lon_points mesh
              query_face_indices).2.getD (3 * g + 2) 0 = f.2.2) := by
  unfold in_mesh_triangle_indices
  refine ⟨?_, ?_, ?_⟩
  · rw [flatMap_triple_length (List.range (num_lat_points * num_lon_points))
      (fun g => g) (fun g => g) (fun g => g)]
    rw [List.length_range]
  · rw [flatMap_triple_length _ (fun f : Face => f.1) (fun f => f.2.1)
      (fun f => f.2.2), List.length_map, hlen]
  · intro g hg
    have hg1 : g < (List.range (num_lat_points * num_lon_points)).length := by
      simpa using hg
    have hg2 : g < (query_face_indices.map fun fi =>
        mesh.faces.getD fi (0, 0, 0)).length := by
      simpa [hlen] using hg
    have hgq : g < query_face_indices.length := by simpa [hlen] using hg
    have hgrid := flatMap_triple_getD
      (List.range (num_lat_points * num_lon_points))
      (fun g => g) (fun g => g) (fun g => g) 0 g hg1
    have hmesh := flatMap_triple_getD
      (query_face_indices.map fun fi => mesh.faces.getD fi (0, 0, 0))
      (fun f : Face => f.1) (fun f => f.2.1) (fun f => f.2.2) 0 g hg2
    have hfi_lt : query_face_indices.get ⟨g, hgq⟩ < mesh.faces.length :=
      hvalid _ (List.get_mem query_face_indices g hgq)
    have hface : (query_face_indices.map fun fi =>
          mesh.faces.getD fi (0, 0, 0)).get ⟨g, hg2⟩
        = mesh.faces.get ⟨query_face_indices.get ⟨g, hgq⟩, hfi_lt⟩ := by
      rw [List.get_map]
      exact List.getD_eq_get _ _ hfi_lt
    refine ⟨mesh.faces.get ⟨query_face_indices.get ⟨g, hgq⟩, hfi_lt⟩,
      List.get_mem _ _ _, ?_⟩
    rw [← hface]
    have hrange : (List.range (num_lat_points * num_lon_points)).get ⟨g, hg1⟩
        = g := List.get_range g hg1
    exact ⟨⟨by rw [hgrid.1, hrange], hmesh.1⟩,
      ⟨by rw [hgrid.2.1, hrange], hmesh.2.1⟩,
      ⟨by rw [hgrid.2.2, hrange], hmesh.2.2⟩⟩

/-- Witness for C5 on a 1×1 grid over the icosahedron with the query
returning face 5. -/
theorem in_mesh_triangle_indices_spec_witness :
    ([5] : List Nat).length = 1 * 1
    ∧ ((in_mesh_triangle_indices 1 1 get_icosahedron [5]).1.length
        = 3 * (1 * 1)
      ∧ (in_mesh_triangle_indices 1 1 get_icosahedron [5]).2.length
        = 3 * (1 * 1)
      ∧ ∀ g, g < 1 * 1 →
        ∃ f ∈ get_icosahedron.faces,
          ((in_mesh_triangle_indices 1 1 get_icosahedron [5]).1.getD
              (3 * g) 0 = g
            ∧ (in_mesh_triangle_indices 1 1 get_icosahedron [5]).2.getD
              (3 * g) 0 = f.1)
          ∧ ((in_mesh_triangle_indices 1 1 get_icosahedron [5]).1.getD
              (3 * g + 1) 0 = g
            ∧ (in_mesh_triangle_indices 1 1 get_icosahedron [5]).2.getD
              (3 * g + 1) 0 = f.2.1)
          ∧ ((in_mesh_triangle_indices 1 1 get_icosahedron [5]).1.getD
              (3 * g + 2) 0 = g
            ∧ (in_mesh_triangle_indices 1 1 get_icosahedron [5]).2.getD
              (3 * g + 2) 0 = f.2.2)) :=
  ⟨by decide, in_mesh_triangle_indices_spec 1 1 get_icosahedron [5]
    (by decide) (by decide)⟩

/-- Exact 3-D coordinates. -/
abbrev Q3 := ℚ × ℚ × ℚ

/-- Squared Euclidean distance between two points. -/
def sqDist (a b : Q3) : ℚ :=
  (a.1 - b.1) * (a.1 - b.1) + (a.2.1 - b.2.1) * (a.2.1 - b.2.1)
    + (a.2.2 - b.2.2) * (a.2.2 - b.2.2)

/-- Squared Euclidean norm of a point. -/
def sqNorm (p : Q3) : ℚ := p.1 * p.1 + p.2.1 * p.2.1 + p.2.2 * p.2.2

/-- Straight-line distance comparison `dist a b ≤ r` of the radius query,
written in exact squared form (equivalent for `r ≥ 0`; no point is within a
negative radius). -/
def withinRadius (a b : Q3) (r : ℚ) : Bool :=
  decide (0 ≤ r) && decide (sqDist a b ≤ r * r)

/-- Mirror of `radius_query_indices`: `grid_positions` is the flattened
output of `_grid_lat_lon_to_coordinates` and `mesh_positions` is
`mesh.vertices`, both supplied as exact coordinates.  The external
`scipy.spatial.cKDTree.query_ball_point` is modeled by its documented
semantics (also stated in the source docstring): for each grid point, all
mesh indices at straight-line distance at most `radius`.  Grid indices are
repeated per neighbor (`np.repeat`) and the per-point lists are concatenated
grid-point-major. -/
def radius_query_indices (grid_positions mesh_positions : List Q3)
    (radius : ℚ) : List Nat × List Nat :=
  ((List.range grid_positions.length).flatMap fun g =>
      List.replicate ((List.range mesh_positions.length).filter fun mi =>
        withinRadius (grid_positions.getD g (0, 0, 0))
          (mesh_positions.getD mi (0, 0, 0)) radius).length g,
    (List.range grid_positions.length).flatMap fun g =>
      (List.range mesh_positions.length).filter fun mi =>
        withinRadius (grid_positions.getD g (0, 0, 0))
          (mesh_positions.getD mi (0, 0, 0)) radius)

theorem zip_replicate_self {α β : Type} (x : α) (l : List β) :
    (List.replicate l.length x).zip l = l.map fun y => (x, y) := by
  induction l with
  | nil => rfl
  | cons y ys ih => simp [List.replicate_succ, ih]

theorem zip_flatMap_replicate (l : List Nat) (f : Nat → List Nat) :
    ((l.flatMap fun g => List.replicate (f g).length g).zip (l.flatMap f))
      = l.flatMap fun g => (f g).map fun mi => (g, mi) := by
  induction l with
  | nil => rfl
  | cons g gs ih =>
      simp only [List.flatMap_cons]
      rw [List.zip_append (by simp), zip_replicate_self, ih]

/-- Counterexample for C6 as stated: with radius 0, a grid point that exactly
coincides with a mesh vertex is still returned (the query keeps distances
`≤ radius`), so the edge list is not empty. -/
theorem radius_query_zero_not_empty :
    radius_query_indices [((1 : ℚ), 0, 0)] [((1 : ℚ), 0, 0)] 0 ≠ ([], []) := by
  have hval : radius_query_indices [((1 : ℚ), 0, 0)] [((1 : ℚ), 0, 0)] 0
      = ([0], [0]) := by
    simp [radius_query_indices, withinRadius, sqDist, List.range_succ]
  rw [hval]
  simp

theorem sqDist_le_four (a b : Q3) (ha : sqNorm a = 1) (hb : sqNorm b = 1) :
    sqDist a b ≤ 4 := by
  unfold sqNorm at ha hb
  unfold sqDist
  nlinarith [sq_nonneg (a.1 + b.1), sq_nonneg (a.2.1 + b.2.1),
    sq_nonneg (a.2.2 + b.2.2)]

/-- C6 (amended): with radius 0 the query yields zero edges provided no grid
point exactly coincides with a mesh vertex; with radius at least the sphere
diameter 2 (unit-norm positions) every (grid, mesh) pair is returned; and
the pairs are produced grid-point-major (grid indices non-decreasing, each
grid point's edges contiguous). -/
theorem radius_query_indices_spec (grid_positions mesh_positions : List Q3)
    (radius : ℚ) :
    ((∀ p ∈ grid_positions, ∀ q ∈ mesh_positions, 0 < sqDist p q) →
      radius_query_indices grid_positions mesh_positions 0 = ([], []))
    ∧ (2 ≤ radius →
      (∀ p ∈ grid_positions, sqNorm p = 1) →
      (∀ q ∈ mesh_positions, sqNorm q = 1) →
      ∀ g mi, g < grid_positions.length → mi < mesh_positions.length →
        (g, mi) ∈ (radius_query_indices grid_positions mesh_positions
            radius).1.zip
          (radius_query_indices grid_positions mesh_positions radius).2)
    ∧ (radius_query_indices grid_positions mesh_positions
        radius).1.Sorted (· ≤ ·) := by
  refine ⟨?_, ?_, ?_⟩
  · intro hpos
    have hfilter : ∀ g ∈ List.range grid_positions.length,
        ((List.range mesh_positions.length).filter fun mi =>
          withinRadius (grid_positions.getD g (0, 0, 0))
            (mesh_positions.getD mi (0, 0, 0)) 0) = [] := by
      intro g hg
      rw [List.filter_eq_nil_iff]
      intro mi hmi
      rw [List.mem_range] at hg hmi
      have hgmem : grid_positions.getD g (0, 0, 0) ∈ grid_positions := by
        rw [List.getD_eq_get _ _ hg]
        exact List.get_mem _ _ _
      have hmmem : mesh_positions.getD mi (0, 0, 0) ∈ mesh_positions := by
        rw [List.getD_eq_get _ _ hmi]
        exact List.get_mem _ _ _
      have hd := hpos _ hgmem _ hmmem
      simp only [withinRadius, Bool.and_eq_true, decide_eq_true_eq, not_and]
      intro _ hle
      nlinarith
    unfold radius_query_indices
    rw [Prod.mk.injEq]
    constructor
    · rw [List.flatMap_eq_nil_iff]
      intro g hg
      rw [hfilter g hg]
      rfl
    · rw [List.flatMap_eq_nil_iff]
      exact hfilter
  · intro hr hgrid hmesh g mi hg hmi
    unfold radius_query_indices
    rw [zip_flatMap_replicate]
    rw [List.mem_flatMap]
    refine ⟨g, List.mem_range.mpr hg, ?_⟩
    rw [List.mem_map]
    refine ⟨mi, ?_, rfl⟩
    rw [List.mem_filter]
    refine ⟨List.mem_range.mpr hmi, ?_⟩
    have hgmem : grid_positions.getD g (0, 0, 0) ∈ grid_positions := by
      rw [List.getD_eq_get _ _ hg]
      exact List.get_mem _ _ _
    have hmmem : mesh_positions.getD mi (0, 0, 0) ∈ mesh_positions := by
      rw [List.getD_eq_get _ _ hmi]
      exact List.get_mem _ _ _
    have hle4 := sqDist_le_four _ _ (hgrid _ hgmem) (hmesh _ hmmem)
    simp only [withinRadius, Bool.and_eq_true, decide_eq_true_eq]
    constructor
    · linarith
    · nlinarith
  · unfold radius_query_indices
    show List.Pairwise (· ≤ ·) _
    rw [List.pairwise_flatMap]
    constructor
    · intro g hg
      rw [List.pairwise_replicate]
      exact Or.inr le_rfl
    · refine (List.pairwise_lt_range _).imp ?_
      intro a b hab x hx y hy
      rw [List.eq_of_mem_replicate hx, List.eq_of_mem_replicate hy]
      exact le_of_lt hab

/-- Witness for C6 (amended) with a grid point at `(1,0,0)` and a mesh vertex
at `(-1,0,0)`: radius 0 yields no edges and radius 2 yields the pair. -/
theorem radius_query_indices_spec_witness :
    radius_query_indices [((1 : ℚ), 0, 0)] [((-1 : ℚ), 0, 0)] 0 = ([], [])
    ∧ (0, 0) ∈ (radius_query_indices [((1 : ℚ), 0, 0)]
        [((-1 : ℚ), 0, 0)] 2).1.zip
        (radius_query_indices [((1 : ℚ), 0, 0)] [((-1 : ℚ), 0, 0)] 2).2 :=
  ⟨(radius_query_indices_spec [((1 : ℚ), 0, 0)] [((-1 : ℚ), 0, 0)] 0).1
      (by
        intro p hp q hq
        simp only [List.mem_singleton] at hp hq
        subst hp
        subst hq
        norm_num [sqDist]),
    (radius_query_indices_spec [((1 : ℚ), 0, 0)] [((-1 : ℚ), 0, 0)] 2).2.1
      (le_refl 2)
      (by
        intro p hp
        simp only [List.mem_singleton] at hp
        subst hp
        norm_num [sqNorm])
      (by
        intro q hq
        simp only [List.mem_singleton] at hq
        subst hq
        norm_num [sqNorm])
      0 0 (by simp) (by simp)⟩

/-- Real 3-D vectors, used for the feature and rotation computations. -/
abbrev V3 := ℝ × ℝ × ℝ

/-- Euclidean norm of a relative position (`np.linalg.norm(..., axis=-1)`). -/
noncomputable def vnorm (v : V3) : ℝ :=
  Real.sqrt (v.1 ^ 2 + v.2.1 ^ 2 + v.2.2 ^ 2)

/-- Maximum of a numpy array (`arr.max()`); the placeholder head default is
irrelevant for the nonempty arrays on which numpy defines it. -/
def listMax (l : List ℝ) : ℝ := l.foldr max (l.headD 0)

theorem le_foldr_max (l : List ℝ) (a : ℝ) : ∀ x ∈ l, x ≤ l.foldr max a := by
  induction l with
  | nil => simp
  | cons y ys ih =>
      intro x hx
      rcases List.mem_cons.mp hx with rfl | hx
      · exact le_max_left _ _
      · exact le_trans (ih x hx) (le_max_right _ _)

theorem foldr_max_mem_or (l : List ℝ) (a : ℝ) :
    l.foldr max a = a ∨ l.foldr max a ∈ l := by
  induction l with
  | nil => exact Or.inl rfl
  | cons y ys ih =>
      rcases max_cases y (ys.foldr max a) with ⟨hm, _⟩ | ⟨hm, _⟩
      · exact Or.inr (by rw [List.foldr_cons, hm]; exact List.mem_cons_self _ _)
      · rcases ih with h | h
        · exact Or.inl (by rw [List.foldr_cons, hm, h])
        · exact Or.inr (by rw [List.foldr_cons, hm]; exact List.mem_cons_of_mem _ h)

theorem le_listMax (l : List ℝ) (x : ℝ) (hx : x ∈ l) : x ≤ listMax l :=
  le_foldr_max l (l.headD 0) x hx

theorem listMax_mem (l : List ℝ) (hne : l ≠ []) : listMax l ∈ l := by
  cases l with
  | nil => exact absurd rfl hne
  | cons y ys =>
      rcases foldr_max_mem_or (y :: ys) ((y :: ys).headD 0) with h | h
      · rw [listMax, h]
        exact List.mem_cons_self _ _
      · exact h

/-- Normalization stage of the edge features of
`get_bipartite_graph_spatial_features` (and, with `none`, of
`get_graph_spatial_features`, which has no explicit factor): per-edge rows
`[distance / factor, relative_position / factor]`, where the factor is the
caller-supplied `edge_normalization_factor` or, when absent, the maximum
relative edge distance of the edge set. -/
noncomputable def normalized_edge_features (relative_position : List V3)
    (edge_normalization_factor : Option ℝ) : List (ℝ × V3) :=
  let relative_edge_distances := relative_position.map vnorm
  let factor := edge_normalization_factor.getD (listMax relative_edge_distances)
  relative_position.map fun v =>
    (vnorm v / factor, (v.1 / factor, v.2.1 / factor, v.2.2 / factor))

theorem abs_component_le_vnorm (v : V3) :
    |v.1| ≤ vnorm v ∧ |v.2.1| ≤ vnorm v ∧ |v.2.2| ≤ vnorm v := by
  unfold vnorm
  refine ⟨?_, ?_, ?_⟩
  · rw [← Real.sqrt_sq_eq_abs]
    exact Real.sqrt_le_sqrt (by nlinarith [sq_nonneg v.2.1, sq_nonneg v.2.2])
  · rw [← Real.sqrt_sq_eq_abs]
    exact Real.sqrt_le_sqrt (by nlinarith [sq_nonneg v.1, sq_nonneg v.2.2])
  · rw [← Real.sqrt_sq_eq_abs]
    exact Real.sqrt_le_sqrt (by nlinarith [sq_nonneg v.1, sq_nonneg v.2.1])

/-- C7: when no explicit factor is supplied, the divisor is the maximum
relative edge distance of the featurized edge set, so every distance feature
is at most 1 with the maximum achieved exactly, and every relative-position
component lies in [-1, 1]; when an explicit factor is supplied, that factor
is the divisor instead. -/
theorem edge_feature_normalization (relative_position : List V3) (c : ℝ)
    (hne : relative_position ≠ [])
    (hpos : 0 < listMax (relative_position.map vnorm)) :
    ((∀ fe ∈ normalized_edge_features relative_position none,
        fe.1 ≤ 1 ∧ |fe.2.1| ≤ 1 ∧ |fe.2.2.1| ≤ 1 ∧ |fe.2.2.2| ≤ 1)
      ∧ ∃ fe ∈ normalized_edge_features relative_position none, fe.1 = 1)
    ∧ normalized_edge_features relative_position (some c)
        = relative_position.map (fun v =>
            (vnorm v / c, (v.1 / c, v.2.1 / c, v.2.2 / c))) := by
  refine ⟨⟨?_, ?_⟩, rfl⟩
  · intro fe hfe
    unfold normalized_edge_features at hfe
    simp only [Option.getD_none, List.mem_map] at hfe
    obtain ⟨v, hv, rfl⟩ := hfe
    have hle : vnorm v ≤ listMax (relative_position.map vnorm) :=
      le_listMax _ _ (List.mem_map.mpr ⟨v, hv, rfl⟩)
    obtain ⟨h1, h2, h3⟩ := abs_component_le_vnorm v
    have hn : 0 ≤ vnorm v := Real.sqrt_nonneg _
    refine ⟨(div_le_one hpos).mpr hle, ?_, ?_, ?_⟩
    · rw [abs_div, abs_of_pos hpos]
      exact (div_le_one hpos).mpr (le_trans h1 hle)
    · rw [abs_div, abs_of_pos hpos]
      exact (div_le_one hpos).mpr (le_trans h2 hle)
    · rw [abs_div, abs_of_pos hpos]
      exact (div_le_one hpos).mpr (le_trans h3 hle)
  · have hmem := listMax_mem (relative_position.map vnorm)
      (by simpa using hne)
    rw [List.mem_map] at hmem
    obtain ⟨v, hv, heq⟩ := hmem
    refine ⟨(vnorm v / listMax (relative_position.map vnorm),
      (v.1 / listMax (relative_position.map vnorm),
        v.2.1 / listMax (relative_position.map vnorm),
        v.2.2 / listMax (relative_position.map vnorm))), ?_, ?_⟩
    · unfold normalized_edge_features
      simp only [Option.getD_none, List.mem_map]
      exact ⟨v, hv, rfl⟩
    · rw [heq]
      exact div_self (ne_of_gt hpos)

theorem vnorm_two : vnorm ((2 : ℝ), 0, 0) = 2 := by
  unfold vnorm
  rw [show ((2 : ℝ) ^ 2 + 0 ^ 2 + 0 ^ 2) = 2 ^ 2 from by norm_num,
    Real.sqrt_sq (by norm_num : (0 : ℝ) ≤ 2)]

theorem vnorm_neg_two : vnorm ((-2 : ℝ), 0, 0) = 2 := by
  unfold vnorm
  rw [show ((-2 : ℝ) ^ 2 + 0 ^ 2 + 0 ^ 2) = 2 ^ 2 from by norm_num,
    Real.sqrt_sq (by norm_num : (0 : ℝ) ≤ 2)]

/-- Witness for C7 on the two opposite relative positions `(2,0,0)` and
`(-2,0,0)` (both of length 2) with explicit factor 5. -/
theorem edge_feature_normalization_witness :
    ((∀ fe ∈ normalized_edge_features [((2 : ℝ), 0, 0), ((-2 : ℝ), 0, 0)] none,
        fe.1 ≤ 1 ∧ |fe.2.1| ≤ 1 ∧ |fe.2.2.1| ≤ 1 ∧ |fe.2.2.2| ≤ 1)
      ∧ ∃ fe ∈ normalized_edge_features [((2 : ℝ), 0, 0), ((-2 : ℝ), 0, 0)]
          none, fe.1 = 1)
    ∧ normalized_edge_features [((2 : ℝ), 0, 0), ((-2 : ℝ), 0, 0)] (some 5)
        = ([((2 : ℝ), 0, 0), ((-2 : ℝ), 0, 0)] : List V3).map (fun v =>
            (vnorm v / 5, (v.1 / 5, v.2.1 / 5, v.2.2 / 5))) :=
  edge_feature_normalization [((2 : ℝ), 0, 0), ((-2 : ℝ), 0, 0)] 5
    (by simp)
    (by
      simp only [List.map_cons, List.map_nil, vnorm_two, vnorm_neg_two]
      norm_num [listMax])

/-- Mirror of `spherical_to_cartesian` (unit radius). -/
noncomputable def spherical_to_cartesian (phi theta : ℝ) : V3 :=
  (Real.cos phi * Real.sin theta, Real.sin phi * Real.sin theta, Real.cos theta)

/-- Four-quadrant arctangent, modeling `np.arctan2` by its documented
semantics (external library). -/
noncomputable def arctan2 (y x : ℝ) : ℝ :=
  if 0 < x then Real.arctan (y / x)
  else if x < 0 then
    (if 0 ≤ y then Real.arctan (y / x) + Real.pi
      else Real.arctan (y / x) - Real.pi)
  else
    (if 0 < y then Real.pi / 2 else if y < 0 then -(Real.pi / 2) else 0)

/-- Mirror of `cartesian_to_spherical`: `phi = arctan2(y, x)`,
`theta = arccos(z)` (unit radius). -/
noncomputable def cartesian_to_spherical (v : V3) : ℝ × ℝ :=
  (arctan2 v.2.1 v.1, Real.arccos v.2.2)

/-- Rows of a 3×3 matrix. -/
abbrev Mat3 := V3 × V3 × V3

/-- Euclidean inner product on `V3`. -/
def dot3 (a b : V3) : ℝ := a.1 * b.1 + a.2.1 * b.2.1 + a.2.2 * b.2.2

/-- Matrix–vector product; `rotate_with_matrices` computes
`einsum("bji,bi->bj", m, v)`, i.e. exactly this product per batch entry. -/
def matVec (M : Mat3) (v : V3) : V3 :=
  (dot3 M.1 v, dot3 M.2.1 v, dot3 M.2.2 v)

/-- Row of a matrix product. -/
def mulRow (r : V3) (B : Mat3) : V3 :=
  (dot3 r (B.1.1, B.2.1.1, B.2.2.1),
    dot3 r (B.1.2.1, B.2.1.2.1, B.2.2.2.1),
    dot3 r (B.1.2.2, B.2.1.2.2, B.2.2.2.2))

/-- Matrix product. -/
def matMul (A B : Mat3) : Mat3 :=
  (mulRow A.1 B, mulRow A.2.1 B, mulRow A.2.2 B)

/-- Rotation by angle `a` about the z axis, as produced by
`scipy.spatial.transform.Rotation.from_euler("z", a).as_matrix()` (external
library, modeled from its documented semantics). -/
noncomputable def Rz (a : ℝ) : Mat3 :=
  ((Real.cos a, -Real.sin a, 0), (Real.sin a, Real.cos a, 0), (0, 0, 1))

/-- Rotation by angle `a` about the y axis. -/
noncomputable def Ry (a : ℝ) : Mat3 :=
  ((Real.cos a, 0, Real.sin a), (0, 1, 0), (-Real.sin a, 0, Real.cos a))

/-- Mirror of `get_rotation_matrices_to_local_coordinates` for one reference
node.  A lowercase (extrinsic) `from_euler` sequence composes the axis
rotations right-to-left: "zy" with angles `(a, b)` is `Ry(b) * Rz(a)` and
"zyz" with `(a, b, -a)` is `Rz(-a) * Ry(b) * Rz(a)`, with
`a = -reference_phi` and `b = -reference_theta + pi/2`.  With neither flag
set the source raises a `ValueError`, modeled as `none`. -/
noncomputable def get_rotation_matrices_to_local_coordinates
    (reference_phi reference_theta : ℝ)
    (rotate_latitude rotate_longitude : Bool) : Option Mat3 :=
  if rotate_longitude && rotate_latitude then
    some (matMul (Ry (-reference_theta + Real.pi / 2)) (Rz (-reference_phi)))
  else if rotate_longitude then
    some (Rz (-reference_phi))
  else if rotate_latitude then
    some (matMul (Rz (-(-reference_phi)))
      (matMul (Ry (-reference_theta + Real.pi / 2)) (Rz (-reference_phi))))
  else none

/-- Mirror of `rotate_with_matrices` (`einsum("bji,bi->bj")` on one entry). -/
def rotate_with_matrices (M : Mat3) (v : V3) : V3 := matVec M v

/-- Identity matrix (default for totalized indexing). -/
def idMat3 : Mat3 := ((1, 0, 0), (0, 1, 0), (0, 0, 1))

/-- Mirror of `get_relative_position_in_receiver_local_coordinates`: node
positions from spherical coordinates; with no alignment flag, the plain
difference of the unrotated unit positions; otherwise each edge applies its
receiver's rotation matrix to both endpoint positions before subtracting. -/
noncomputable def get_relative_position_in_receiver_local_coordinates
    (node_phi node_theta : List ℝ) (senders receivers : List Nat)
    (latitude_local_coordinates longitude_local_coordinates : Bool) :
    Option (List V3) :=
  let node_pos := List.zipWith spherical_to_cartesian node_phi node_theta
  if !(latitude_local_coordinates || longitude_local_coordinates) then
    some (List.zipWith (fun s r =>
      node_pos.getD s (0, 0, 0) - node_pos.getD r (0, 0, 0)) senders receivers)
  else
    match (node_phi.zip node_theta).mapM (fun pt =>
        get_rotation_matrices_to_local_coordinates pt.1 pt.2
          latitude_local_coordinates longitude_local_coordinates) with
    | none => none
    | some rotation_matrices =>
        some (List.zipWith (fun s r =>
          rotate_with_matrices (rotation_matrices.getD r idMat3)
              (node_pos.getD s (0, 0, 0))
            - rotate_with_matrices (rotation_matrices.getD r idMat3)
              (node_pos.getD r (0, 0, 0))) senders receivers)

theorem matVec_matMul (A B : Mat3) (v : V3) :
    matVec (matMul A B) v = matVec A (matVec B v) := by
  simp only [matVec, matMul, mulRow, dot3, Prod.mk.injEq]
  refine ⟨by ring, by ring, by ring⟩

theorem Rz_neg_phi_apply (phi theta : ℝ) :
    matVec (Rz (-phi)) (spherical_to_cartesian phi theta)
      = (Real.sin theta, 0, Real.cos theta) := by
  simp only [matVec, dot3, Rz, spherical_to_cartesian, Real.cos_neg,
    Real.sin_neg, Prod.mk.injEq]
  refine ⟨?_, by ring, by ring⟩
  linear_combination Real.sin theta * Real.sin_sq_add_cos_sq phi

theorem Ry_polar_apply (theta : ℝ) :
    matVec (Ry (-theta + Real.pi / 2)) (Real.sin theta, 0, Real.cos theta)
      = (1, 0, 0) := by
  have hb : -theta + Real.pi / 2 = Real.pi / 2 - theta := by ring
  rw [hb]
  simp only [matVec, dot3, Ry, Real.cos_pi_div_two_sub,
    Real.sin_pi_div_two_sub, Prod.mk.injEq]
  refine ⟨?_, by ring, by ring⟩
  linear_combination Real.sin_sq_add_cos_sq theta

theorem Rz_phi_apply_pole (phi : ℝ) :
    matVec (Rz (-(-phi))) ((1 : ℝ), 0, 0)
      = (Real.cos phi, Real.sin phi, 0) := by
  rw [neg_neg]
  simp only [matVec, dot3, Rz, Prod.mk.injEq]
  refine ⟨by ring, by ring, by ring⟩

theorem arctan2_zero_of_nonneg (x : ℝ) (hx : 0 ≤ x) : arctan2 0 x = 0 := by
  unfold arctan2
  rcases lt_or_eq_of_le hx with h | h
  · rw [if_pos h, zero_div, Real.arctan_zero]
  · rw [if_neg (by rw [← h]; exact lt_irrefl 0),
      if_neg (by rw [← h]; exact lt_irrefl 0), if_neg (lt_irrefl 0),
      if_neg (lt_irrefl 0)]

/-- C8: with neither alignment flag set, the rotation engine raises
(`none`), and the relative-position computation never invokes it in that
mode: it returns the plain differences of the unrotated unit positions,
sender minus receiver. -/
theorem no_rotation_mode_spec (node_phi node_theta : List ℝ)
    (senders receivers : List Nat) (phi theta : ℝ) :
    get_rotation_matrices_to_local_coordinates phi theta false false = none
    ∧ get_relative_position_in_receiver_local_coordinates node_phi node_theta
        senders receivers false false
      = some (List.zipWith (fun s r =>
          (List.zipWith spherical_to_cartesian node_phi node_theta).getD s
              (0, 0, 0)
            - (List.zipWith spherical_to_cartesian node_phi node_theta).getD r
              (0, 0, 0)) senders receivers) := by
  constructor
  · rfl
  · rfl

/-- C9: rotating a reference point's own position with its rotation matrix
lands, exactly, at polar angle pi/2 whenever the latitude flag is set and at
azimuth 0 whenever the longitude flag is set (for any reference with
`theta` in `[0, pi]`, i.e. any latitude in `[-90, 90]` degrees). -/
theorem rotation_to_local_spec (phi theta : ℝ)
    (rotate_latitude rotate_longitude : Bool) (h0 : 0 ≤ theta)
    (hpi : theta ≤ Real.pi)
    (hflag : (rotate_latitude || rotate_longitude) = true) :
    ∃ M, get_rotation_matrices_to_local_coordinates phi theta
        rotate_latitude rotate_longitude = some M
      ∧ (rotate_latitude = true →
          (cartesian_to_spherical (rotate_with_matrices M
            (spherical_to_cartesian phi theta))).2 = Real.pi / 2)
      ∧ (rotate_longitude = true →
          (cartesian_to_spherical (rotate_with_matrices M
            (spherical_to_cartesian phi theta))).1 = 0) := by
  have hsin : 0 ≤ Real.sin theta := Real.sin_nonneg_of_nonneg_of_le_pi h0 hpi
  cases rotate_latitude with
  | false =>
      cases rotate_longitude with
      | false => exact absurd hflag (by simp)
      | true =>
          refine ⟨Rz (-phi), rfl, by simp, fun _ => ?_⟩
          rw [rotate_with_matrices, Rz_neg_phi_apply, cartesian_to_spherical]
          exact arctan2_zero_of_nonneg _ hsin
  | true =>
      cases rotate_longitude with
      | true =>
          refine ⟨matMul (Ry (-theta + Real.pi / 2)) (Rz (-phi)), rfl,
            fun _ => ?_, fun _ => ?_⟩
          · rw [rotate_with_matrices, matVec_matMul, Rz_neg_phi_apply,
              Ry_polar_apply, cartesian_to_spherical]
            exact Real.arccos_zero
          · rw [rotate_with_matrices, matVec_matMul, Rz_neg_phi_apply,
              Ry_polar_apply, cartesian_to_spherical]
            exact arctan2_zero_of_nonneg _ (by norm_num)
      | false =>
          refine ⟨matMul (Rz (-(-phi)))
            (matMul (Ry (-theta + Real.pi / 2)) (Rz (-phi))), rfl,
            fun _ => ?_, by simp⟩
          rw [rotate_with_matrices, matVec_matMul, matVec_matMul,
            Rz_neg_phi_apply, Ry_polar_apply, Rz_phi_apply_pole,
            cartesian_to_spherical]
          exact Real.arccos_zero

/-- Witness for C9 at `phi = 0`, `theta = pi/2` with both flags set. -/
theorem rotation_to_local_spec_witness :
    ∃ M, get_rotation_matrices_to_local_coordinates 0 (Real.pi / 2)
        true true = some M
      ∧ (true = true →
          (cartesian_to_spherical (rotate_with_matrices M
            (spherical_to_cartesian 0 (Real.pi / 2)))).2 = Real.pi / 2)
      ∧ (true = true →
          (cartesian_to_spherical (rotate_with_matrices M
            (spherical_to_cartesian 0 (Real.pi / 2)))).1 = 0) :=
  rotation_to_local_spec 0 (Real.pi / 2) true true
    (le_of_lt (by positivity)) (by linarith [Real.pi_pos]) rfl

/-- Configuration consumed by `GraphGridMesh.__init__`. -/
structure GraphConfig where
  mesh_size : Nat
  resolution : ℚ
  radius_query_fraction_edge_length : ℚ
  mesh2grid_edge_normalization_factor : Option ℚ

/-- The sixteen optional precomputed fields of `GraphGridMesh.__init__`,
with the source's field names and layout (index arrays, node/edge counters,
feature arrays). -/
structure GraphStaticFields where
  mesh2mesh_src_index : List Nat
  mesh2mesh_dst_index : List Nat
  grid2mesh_src_index : List Nat
  grid2mesh_dst_index : List Nat
  mesh2grid_src_index : List Nat
  mesh2grid_dst_index : List Nat
  mesh_num_nodes : Nat
  grid_num_nodes : Nat
  mesh_num_edges : Nat
  grid2mesh_num_edges : Nat
  mesh2grid_num_edges : Nat
  grid_node_feat : List (List ℚ)
  mesh_node_feat : List (List ℚ)
  mesh_edge_feat : List (List ℚ)
  grid2mesh_edge_feat : List (List ℚ)
  mesh2grid_edge_feat : List (List ℚ)

/-- The built aggregate: the mesh hierarchy (always rebuilt from the
configuration) plus the sixteen graph fields. -/
structure GraphGridMesh where
  meshes : List TriangularMesh
  graph_fields : GraphStaticFields

/-- Mirror of `GraphGridMesh.__init__`.  The construction pipeline of the
`should_init` branch (radius query, mesh-graph build, point-location query,
feature encoding — embedded separately as `radius_query_indices`,
`faces_to_edges`, `in_mesh_triangle_indices` and
`normalized_edge_features`) is abstracted as the `pipeline` argument; the
claim under verification concerns only the dispatch on the optional
arguments.  `should_init` is `any(var is None for var in all_input_vars)`;
when false, every field is stored directly from the arguments. -/
def GraphGridMesh.init (config : GraphConfig)
    (pipeline : GraphConfig → GraphStaticFields)
    (mesh2mesh_src_index : Option (List Nat))
    (mesh2mesh_dst_index : Option (List Nat))
    (grid2mesh_src_index : Option (List Nat))
    (grid2mesh_dst_index : Option (List Nat))
    (mesh2grid_src_index : Option (List Nat))
    (mesh2grid_dst_index : Option (List Nat))
    (mesh_num_nodes : Option Nat)
    (grid_num_nodes : Option Nat)
    (mesh_num_edges : Option Nat)
    (grid2mesh_num_edges : Option Nat)
    (mesh2grid_num_edges : Option Nat)
    (grid_node_feat : Option (List (List ℚ)))
    (mesh_node_feat : Option (List (List ℚ)))
    (mesh_edge_feat : Option (List (List ℚ)))
    (grid2mesh_edge_feat : Option (List (List ℚ)))
    (mesh2grid_edge_feat : Option (List (List ℚ))) : GraphGridMesh :=
  let meshes := get_hierarchy_of_triangular_meshes_for_sphere config.mesh_size
  let should_init :=
    mesh2mesh_src_index.isNone || mesh2mesh_dst_index.isNone ||
    grid2mesh_src_index.isNone || grid2mesh_dst_index.isNone ||
    mesh2grid_src_index.isNone || mesh2grid_dst_index.isNone ||
    mesh_num_nodes.isNone || grid_num_nodes.isNone ||
    mesh_num_edges.isNone || grid2mesh_num_edges.isNone ||
    mesh2grid_num_edges.isNone || grid_node_feat.isNone ||
    mesh_node_feat.isNone || mesh_edge_feat.isNone ||
    grid2mesh_edge_feat.isNone || mesh2grid_edge_feat.isNone
  if should_init then
    { meshes := meshes, graph_fields := pipeline config }
  else
    { meshes := meshes,
      graph_fields :=
        { mesh2mesh_src_index := mesh2mesh_src_index.getD []
          mesh2mesh_dst_index := mesh2mesh_dst_index.getD []
          grid2mesh_src_index := grid2mesh_src_index.getD []
          grid2mesh_dst_index := grid2mesh_dst_index.getD []
          mesh2grid_src_index := mesh2grid_src_index.getD []
          mesh2grid_dst_index := mesh2grid_dst_index.getD []
          mesh_num_nodes := mesh_num_nodes.getD 0
          grid_num_nodes := grid_num_nodes.getD 0
          mesh_num_edges := mesh_num_edges.getD 0
          grid2mesh_num_edges := grid2mesh_num_edges.getD 0
          mesh2grid_num_edges := mesh2grid_num_edges.getD 0
          grid_node_feat := grid_node_feat.getD []
          mesh_node_feat := mesh_node_feat.getD []
          mesh_edge_feat := mesh_edge_feat.getD []
          grid2mesh_edge_feat := grid2mesh_edge_feat.getD []
          mesh2grid_edge_feat := mesh2grid_edge_feat.getD [] } }

/-- C10: `GraphGridMesh.__init__` runs the construction pipeline if and only
if at least one of the sixteen optional arguments is `None`; when all
sixteen are provided it stores them directly (the result does not depend on
the pipeline at all), and in both paths only the mesh hierarchy is rebuilt
from the configuration. -/
theorem graph_grid_mesh_init_spec (config : GraphConfig)
    (pipeline : GraphConfig → GraphStaticFields)
    (a1 a2 a3 a4 a5 a6 : Option (List Nat)) (b1 b2 b3 b4 b5 : Option Nat)
    (c1 c2 c3 c4 c5 : Option (List (List ℚ))) :
    ((a1.isNone || a2.isNone || a3.isNone || a4.isNone || a5.isNone ||
        a6.isNone || b1.isNone || b2.isNone || b3.isNone || b4.isNone ||
        b5.isNone || c1.isNone || c2.isNone || c3.isNone || c4.isNone ||
        c5.isNone) = true →
      GraphGridMesh.init config pipeline a1 a2 a3 a4 a5 a6 b1 b2 b3 b4 b5
          c1 c2 c3 c4 c5
        = ⟨get_hierarchy_of_triangular_meshes_for_sphere config.mesh_size,
            pipeline config⟩)
    ∧ ((a1.isNone || a2.isNone || a3.isNone || a4.isNone || a5.isNone ||
        a6.isNone || b1.isNone || b2.isNone || b3.isNone || b4.isNone ||
        b5.isNone || c1.isNone || c2.isNone || c3.isNone || c4.isNone ||
        c5.isNone) = false →
      GraphGridMesh.init config pipeline a1 a2 a3 a4 a5 a6 b1 b2 b3 b4 b5
          c1 c2 c3 c4 c5
        = ⟨get_hierarchy_of_triangular_meshes_for_sphere config.mesh_size,
            ⟨a1.getD [], a2.getD [], a3.getD [], a4.getD [], a5.getD [],
              a6.getD [], b1.getD 0, b2.getD 0, b3.getD 0, b4.getD 0,
              b5.getD 0, c1.getD [], c2.getD [], c3.getD [], c4.getD [],
              c5.getD []⟩⟩) := by
  constructor
  · intro h
    simp only [GraphGridMesh.init, h, if_true]
  · intro h
    simp only [GraphGridMesh.init, h, Bool.false_eq_true, if_false]

/-- Witness for C10: all sixteen arguments provided — the fields are stored
directly and the pipeline output (which would set `[9]` as the first index
array) is ignored. -/
theorem graph_grid_mesh_init_spec_witness :
    GraphGridMesh.init ⟨0, 1, 1, none⟩
        (fun _ => ⟨[9], [], [], [], [], [], 0, 0, 0, 0, 0, [], [], [], [], []⟩)
        (some [1]) (some [2]) (some []) (some []) (some []) (some [])
        (some 3) (some 4) (some 5) (some 6) (some 7)
        (some [[1]]) (some []) (some []) (some []) (some [])
      = ⟨get_hierarchy_of_triangular_meshes_for_sphere 0,
          ⟨[1], [2], [], [], [], [], 3, 4, 5, 6, 7,
            [[1]], [], [], [], []⟩⟩ :=
  (graph_grid_mesh_init_spec ⟨0, 1, 1, none⟩
    (fun _ => ⟨[9], [], [], [], [], [], 0, 0, 0, 0, 0, [], [], [], [], []⟩)
    (some [1]) (some [2]) (some []) (some []) (some []) (some [])
    (some 3) (some 4) (some 5) (some 6) (some 7)
    (some [[1]]) (some []) (some []) (some []) (some [])).2 rfl
